import Mathlib

/-!
Verification of the quantum time-evolution tutorial notebook
(`community/aqua/general/evolution.ipynb`).

The notebook builds a random symmetric Hamiltonian `h1 = temp + temp.T`,
computes the exact evolution `groundtruth = expm(-1j * h1 * evo_time) @ state_in_vec`,
cross-checks the library routine `qubitOp.evolve(state_in_vec, evo_time, 'matrix', 0)`,
and compares a circuit simulation against the ground truth with `state_fidelity`.

Real/complex floating-point arithmetic is embedded as exact `ℝ`/`ℂ` arithmetic.
The library routines (`state_fidelity`, `Operator.evolve`) are not part of this
repository; where a claim needs them they are modelled from the spec, as flagged
in the corresponding doc comments.
-/

open scoped ComplexConjugate Matrix

namespace Evolution

/-- Number of qubits fixed by the notebook (`num_qubits = 2`). -/
def num_qubits : ℕ := 2

/-- Evolution time fixed by the notebook (`evo_time = 1`). -/
def evo_time : ℝ := 1

/-- Hermitian dot product `∑ i, conj (a i) * b i` of two complex vectors, the overlap
`⟨a|b⟩` underlying the fidelity comparator. -/
noncomputable def dotc {n : ℕ} (a b : Fin n → ℂ) : ℂ :=
  ∑ i, conj (a i) * b i

/-- Modelled from the spec: the implementation of `qiskit.quantum_info.state_fidelity`
is external library code absent from `src/`. Per spec section 4.1 the comparator
returns "a real scalar representing the squared overlap magnitude between the two
(normalized) quantum states", i.e. `|⟨a|b⟩|²`. -/
noncomputable def state_fidelity {n : ℕ} (a b : Fin n → ℂ) : ℝ :=
  Complex.normSq (dotc a b)

/-- A state vector is normalized when its squared Euclidean norm is `1`. -/
def normalized {n : ℕ} (v : Fin n → ℂ) : Prop :=
  ∑ i, Complex.normSq (v i) = 1

/-- Reinterpret a plain complex vector as a point of the Euclidean space `ℂ^n`. -/
noncomputable def toE {n : ℕ} (a : Fin n → ℂ) : EuclideanSpace ℂ (Fin n) :=
  (WithLp.equiv 2 (Fin n → ℂ)).symm a

lemma dotc_eq_inner {n : ℕ} (a b : Fin n → ℂ) :
    dotc a b = (inner (toE a) (toE b) : ℂ) := by
  simp [dotc, toE, PiLp.inner_apply, RCLike.inner_apply]

lemma norm_toE {n : ℕ} (a : Fin n → ℂ) (ha : normalized a) : ‖toE a‖ = 1 := by
  rw [EuclideanSpace.norm_eq]
  have h : ∀ i, ‖toE a i‖ ^ 2 = Complex.normSq (a i) := fun i => by
    rw [← Complex.sq_abs, Complex.norm_eq_abs]; rfl
  simp only [h]
  rw [ha, Real.sqrt_one]

/-- C3: for normalized complex vectors `a` and `b` of equal length, the fidelity
score `state_fidelity a b` lies in the closed interval `[0, 1]`. -/
theorem state_fidelity_mem_unitInterval {n : ℕ} (a b : Fin n → ℂ)
    (ha : normalized a) (hb : normalized b) :
    0 ≤ state_fidelity a b ∧ state_fidelity a b ≤ 1 := by
  refine ⟨Complex.normSq_nonneg _, ?_⟩
  have hcs := norm_inner_le_norm (𝕜 := ℂ) (toE a) (toE b)
  calc state_fidelity a b = ‖(inner (toE a) (toE b) : ℂ)‖ ^ 2 := by
        rw [state_fidelity, dotc_eq_inner, ← Complex.sq_abs, Complex.norm_eq_abs]
    _ ≤ (‖toE a‖ * ‖toE b‖) ^ 2 := pow_le_pow_left₀ (norm_nonneg _) hcs 2
    _ = 1 := by rw [norm_toE a ha, norm_toE b hb]; norm_num

/-- Witness for C3 at the concrete normalized vector `![1]`. -/
theorem state_fidelity_mem_unitInterval_witness :
    normalized ![(1 : ℂ)] ∧
      (0 ≤ state_fidelity ![(1 : ℂ)] ![(1 : ℂ)] ∧
        state_fidelity ![(1 : ℂ)] ![(1 : ℂ)] ≤ 1) :=
  ⟨by simp [normalized], state_fidelity_mem_unitInterval ![(1 : ℂ)] ![(1 : ℂ)]
    (by simp [normalized]) (by simp [normalized])⟩

/-- C5 (counterexample): on the unnormalized vector `![2]` the fidelity of a vector
with itself is `16`, not `1`, so the claim fails for arbitrary (unnormalized) vectors. -/
theorem state_fidelity_self_ne_one :
    state_fidelity ![(2 : ℂ)] ![(2 : ℂ)] ≠ 1 := by
  have h : state_fidelity ![(2 : ℂ)] ![(2 : ℂ)] = 16 := by
    simp [state_fidelity, dotc, Fin.sum_univ_one, Complex.normSq_mul,
      Complex.normSq_conj, Complex.normSq_apply]
    norm_num
  rw [h]; norm_num

/-- C5 (amended): for every normalized vector `v`, the fidelity of `v` with itself
equals `1`. -/
theorem state_fidelity_self {n : ℕ} (v : Fin n → ℂ) (hv : normalized v) :
    state_fidelity v v = 1 := by
  have h : dotc v v = (1 : ℂ) := by
    rw [dotc]
    have hterm : ∀ i, conj (v i) * v i = ((Complex.normSq (v i) : ℝ) : ℂ) := fun i => by
      rw [mul_comm, Complex.mul_conj]
    simp only [hterm]
    rw [← Complex.ofReal_sum, hv, Complex.ofReal_one]
  rw [state_fidelity, h, Complex.normSq_one]

/-- Witness for the amended C5 at the concrete normalized vector `![1]`. -/
theorem state_fidelity_self_witness :
    normalized ![(1 : ℂ)] ∧ state_fidelity ![(1 : ℂ)] ![(1 : ℂ)] = 1 :=
  ⟨by simp [normalized], state_fidelity_self ![(1 : ℂ)] (by simp [normalized])⟩

/-- C6: fidelity is symmetric in its two arguments. -/
theorem state_fidelity_comm {n : ℕ} (a b : Fin n → ℂ) :
    state_fidelity a b = state_fidelity b a := by
  have h : dotc b a = conj (dotc a b) := by
    rw [dotc, dotc, map_sum]
    refine Finset.sum_congr rfl fun i _ => ?_
    rw [map_mul, Complex.conj_conj, mul_comm]
  rw [state_fidelity, state_fidelity, h, Complex.normSq_conj]

/-- C8: the fidelity comparator is deterministic: any two evaluations on the same
pair of inputs yield the same result. -/
theorem state_fidelity_deterministic {n : ℕ} (a b : Fin n → ℂ) (r s : ℝ)
    (hr : r = state_fidelity a b) (hs : s = state_fidelity a b) : r = s :=
  hr.trans hs.symm

/-- Witness for C8 at the concrete vector `![1]`. -/
theorem state_fidelity_deterministic_witness :
    state_fidelity ![(1 : ℂ)] ![(1 : ℂ)] = state_fidelity ![(1 : ℂ)] ![(1 : ℂ)] :=
  state_fidelity_deterministic ![(1 : ℂ)] ![(1 : ℂ)] _ _ rfl rfl

/-- Modelled from the spec: the comparator's implementation is external library code
absent from `src/`. Per spec section 4.1 it computes the squared overlap magnitude of
two equal-length complex vectors, and on "vectors of mismatched length" the error
"should be surfaced, not silently handled"; the surfaced error is modelled as `none`,
a successful return as `some`. Length-unchecked vectors are modelled as lists. -/
noncomputable def state_fidelity_checked (a b : List ℂ) : Option ℝ :=
  if a.length = b.length then
    some (Complex.normSq (List.zipWith (fun x y => conj x * y) a b).sum)
  else none

/-- C7: on vectors of mismatched length the fidelity comparator surfaces an error to
the caller instead of returning a fidelity value. -/
theorem state_fidelity_checked_mismatch (a b : List ℂ) (h : a.length ≠ b.length) :
    state_fidelity_checked a b = none := by
  rw [state_fidelity_checked, if_neg h]

/-- Witness for C7 at the concrete mismatched pair `[1]` and `[]`. -/
theorem state_fidelity_checked_mismatch_witness :
    [(1 : ℂ)].length ≠ ([] : List ℂ).length ∧
      state_fidelity_checked [(1 : ℂ)] [] = none :=
  ⟨by simp, state_fidelity_checked_mismatch [(1 : ℂ)] [] (by simp)⟩

/-- Hamiltonian built by the notebook: `h1 = temp + temp.T`. -/
def h1 {m : ℕ} (temp : Matrix (Fin m) (Fin m) ℝ) : Matrix (Fin m) (Fin m) ℝ :=
  temp + temp.transpose

/-- C4: for every real matrix `temp` of shape `2^n × 2^n`, the Hamiltonian
`h1 = temp + temp.T` is a square `2^n × 2^n` matrix (enforced by its type) equal to
its own transpose, hence Hermitian for this real-valued construction. -/
theorem h1_symm_hermitian (n : ℕ) (temp : Matrix (Fin (2 ^ n)) (Fin (2 ^ n)) ℝ) :
    (h1 temp).transpose = h1 temp ∧ (h1 temp).IsHermitian := by
  have hsymm : (h1 temp).transpose = h1 temp := by
    rw [h1, Matrix.transpose_add, Matrix.transpose_transpose, add_comm]
  refine ⟨hsymm, ?_⟩
  show (h1 temp).conjTranspose = h1 temp
  ext i j
  rw [Matrix.conjTranspose_apply, star_trivial]
  exact congrFun (congrFun hsymm i) j

/-- Complex embedding of the real Hamiltonian `h1` as used by `expm(-1j * h1 * evo_time)`. -/
def h1C {m : ℕ} (temp : Matrix (Fin m) (Fin m) ℝ) : Matrix (Fin m) (Fin m) ℂ :=
  (h1 temp).map Complex.ofReal

/-- Evolution operator `expm(-1j * h * t)` applied by the notebook. -/
noncomputable def evolutionOp {m : ℕ} (h : Matrix (Fin m) (Fin m) ℂ) (t : ℝ) :
    Matrix (Fin m) (Fin m) ℂ :=
  NormedSpace.exp ℂ ((-Complex.I * t) • h)

/-- Ground-truth evolved state `groundtruth = expm(-1j * h1 * evo_time) @ state_in_vec`. -/
noncomputable def groundtruth {m : ℕ} (h : Matrix (Fin m) (Fin m) ℂ) (t : ℝ)
    (v : Fin m → ℂ) : Fin m → ℂ :=
  (evolutionOp h t).mulVec v

/-- Modelled from the spec: `Operator.evolve` is external library code absent from
`src/`. Per spec section 2 ("Reference solver") and the notebook's narration, in mode
`'matrix'` with `num_time_slices = 0` it computes the evolution "via the same matrix
and vector multiplication" as the direct exponentiation; with `k ≥ 1` time slices it
applies `k` successive slice exponentials of duration `t / k`. -/
noncomputable def evolveMatrix {m : ℕ} (h : Matrix (Fin m) (Fin m) ℂ) (t : ℝ)
    (slices : ℕ) (v : Fin m → ℂ) : Fin m → ℂ :=
  if slices = 0 then (NormedSpace.exp ℂ ((-Complex.I * t) • h)).mulVec v
  else ((NormedSpace.exp ℂ ((-Complex.I * ((t : ℂ) / slices)) • h)) ^ slices).mulVec v

/-- C1: the ground-truth vector computed by direct exponentiation equals the vector
returned by the library's built-in evolution routine in mode `'matrix'` with
`num_time_slices = 0`, for the same Hamiltonian, state and time. -/
theorem evolveMatrix_zero_eq_groundtruth {m : ℕ} (h : Matrix (Fin m) (Fin m) ℂ)
    (t : ℝ) (v : Fin m → ℂ) :
    evolveMatrix h t 0 v = groundtruth h t v := by
  rw [evolveMatrix, if_pos rfl, groundtruth, evolutionOp]

lemma h1C_isHermitian {m : ℕ} (temp : Matrix (Fin m) (Fin m) ℝ) :
    (h1C temp).IsHermitian := by
  have hsymm : (h1 temp).transpose = h1 temp := by
    rw [h1, Matrix.transpose_add, Matrix.transpose_transpose, add_comm]
  show (h1C temp).conjTranspose = h1C temp
  ext i j
  rw [Matrix.conjTranspose_apply, h1C, Matrix.map_apply, Matrix.map_apply,
    Complex.star_def, Complex.conj_ofReal]
  congr 1
  have h := congrFun (congrFun hsymm i) j
  rwa [Matrix.transpose_apply] at h

lemma smul_h1C_skew {m : ℕ} (temp : Matrix (Fin m) (Fin m) ℝ) (t : ℝ) :
    ((-Complex.I * t) • h1C temp)ᴴ = -((-Complex.I * t) • h1C temp) := by
  rw [Matrix.conjTranspose_smul, h1C_isHermitian temp, ← neg_smul]
  congr 1
  rw [Complex.star_def, map_mul, map_neg, Complex.conj_I, Complex.conj_ofReal,
    neg_neg, neg_mul, neg_neg]

lemma evolutionOp_unitary {m : ℕ} (temp : Matrix (Fin m) (Fin m) ℝ) (t : ℝ) :
    (evolutionOp (h1C temp) t)ᴴ * evolutionOp (h1C temp) t = 1 := by
  have hcomm : Commute (-((-Complex.I * (t : ℂ)) • h1C temp))
      ((-Complex.I * (t : ℂ)) • h1C temp) := (Commute.refl _).neg_left
  rw [evolutionOp, ← Matrix.exp_conjTranspose, smul_h1C_skew temp t,
    ← Matrix.exp_add_of_commute (𝕂 := ℂ) _ _ hcomm, neg_add_cancel,
    NormedSpace.exp_zero]

lemma star_dotProduct_self {m : ℕ} (w : Fin m → ℂ) :
    Matrix.dotProduct (star w) w = ((∑ i, Complex.normSq (w i) : ℝ) : ℂ) := by
  rw [Matrix.dotProduct, Complex.ofReal_sum]
  refine Finset.sum_congr rfl fun i _ => ?_
  rw [Pi.star_apply, Complex.star_def, mul_comm, Complex.mul_conj]

lemma mulVec_preserves_normSq {m : ℕ} (U : Matrix (Fin m) (Fin m) ℂ) (v : Fin m → ℂ)
    (hU : Uᴴ * U = 1) :
    ∑ i, Complex.normSq (U.mulVec v i) = ∑ i, Complex.normSq (v i) := by
  have key : Matrix.dotProduct (star (U.mulVec v)) (U.mulVec v)
      = Matrix.dotProduct (star v) v := by
    rw [Matrix.star_mulVec, Matrix.dotProduct_mulVec, Matrix.vecMul_vecMul, hU,
      Matrix.vecMul_one]
  rw [star_dotProduct_self, star_dotProduct_self] at key
  exact_mod_cast key

/-- C10: the evolution operator `expm(-1j * h1 * evo_time)` built from the real
symmetric Hamiltonian `h1 = temp + temp.T` is unitary, so the ground-truth vector
`groundtruth = expm(-1j * h1 * evo_time) @ state_in_vec` of a normalized initial
state is itself normalized. -/
theorem groundtruth_normalized {m : ℕ} (temp : Matrix (Fin m) (Fin m) ℝ) (t : ℝ)
    (v : Fin m → ℂ) (hv : normalized v) :
    (evolutionOp (h1C temp) t)ᴴ * evolutionOp (h1C temp) t = 1 ∧
      normalized (groundtruth (h1C temp) t v) := by
  refine ⟨evolutionOp_unitary temp t, ?_⟩
  simp only [normalized, groundtruth] at hv ⊢
  rw [mulVec_preserves_normSq _ v (evolutionOp_unitary temp t)]
  exact hv

/-- Witness for C10 at `temp = [[0]]`, `t = 1` and the normalized state `![1]`. -/
theorem groundtruth_normalized_witness :
    normalized ![(1 : ℂ)] ∧
      ((evolutionOp (h1C !![(0 : ℝ)]) 1)ᴴ * evolutionOp (h1C !![(0 : ℝ)]) 1 = 1 ∧
        normalized (groundtruth (h1C !![(0 : ℝ)]) 1 ![(1 : ℂ)])) :=
  ⟨by simp [normalized],
    groundtruth_normalized !![(0 : ℝ)] 1 ![(1 : ℂ)] (by simp [normalized])⟩

end Evolution
